import Mathlib

/-!
# png2ico: the ICO container writer and the conversion pipeline

A shallow embedding of `png2ico.cpp` (class `ImageConverter` and `wmain`).

* Bytes are natural numbers below 256; a file is the list of bytes written to it.
* `size_t` is 64 bits wide (arithmetic modulo `2 ^ 64`), `UINT`/`uint32_t` 32 bits,
  `uint16_t` 16 bits, `uint8_t` 8 bits; the structs written with `file.write` are
  laid out without padding and in little-endian byte order (x86/x64 Windows).
* `TARGET_SIZES[i]` with `i` outside the vector is undefined behaviour: the embedding
  returns `none` there.
* A `std::ofstream` is its `good()` flag, the number of bytes its device still accepts
  and the bytes written; a `write` the device cannot take in full stores what fits and
  clears the flag, and a `write` on a stream that is not good does nothing.
* GDI+ (decode, draw, encode) and the file system are external: they are the fields
  of `Gdi`, and the code is embedded relative to them.
-/

namespace Png2Ico

/-! ## Machine integers and struct images -/

/-- The number of values of `size_t`, that is `SIZE_MAX + 1` for a 64-bit `size_t`. -/
def SIZE_MAX1 : Nat := 2 ^ 64

/-- Conversion `static_cast<uint8_t>` of an `int`. -/
def toUInt8 (x : Int) : Nat := (x % 256).toNat

/-- Conversion `static_cast<uint16_t>` of a `size_t`. -/
def toUInt16 (x : Nat) : Nat := x % 65536

/-- Conversion `static_cast<uint32_t>` of a `size_t`. -/
def toUInt32 (x : Nat) : Nat := x % 4294967296

/-- Memory image of a 16-bit field, low byte first. -/
def u16le (v : Nat) : List Nat := [v % 256, v / 256 % 256]

/-- Memory image of a 32-bit field, low byte first. -/
def u32le (v : Nat) : List Nat :=
  [v % 256, v / 256 % 256, v / 65536 % 256, v / 16777216 % 256]

/-- The constant `ImageConverter::TARGET_SIZES`. -/
def TARGET_SIZES : List Int := [16, 24, 32, 48, 64, 128, 256]

/-- Memory image of the local `header` struct of `WriteIcoFile`
(`reserved`, `type`, `count`, each `uint16_t`). -/
def headerImage (reserved type count : Nat) : List Nat :=
  u16le reserved ++ u16le type ++ u16le count

/-- Memory image of the local `entry` struct of `WriteIcoFile`. -/
def entryImage (width height colorCount reserved planes bitCount imageSize imageOffset : Nat) :
    List Nat :=
  [width, height, colorCount, reserved] ++ u16le planes ++ u16le bitCount ++
    u32le imageSize ++ u32le imageOffset

/-! ## `WriteIcoFile` -/

/-- The state of a `std::ofstream` that opened: `good` is what `good()` returns, `room` the
number of bytes the device still accepts, `bytes` the bytes written to the file. -/
structure OFStream where
  good : Bool
  room : Nat
  bytes : List Nat
  deriving DecidableEq, Repr

/-- The call `file.write(data, data.size())`: nothing happens on a stream that is not good;
otherwise the bytes are appended if the device has room for all of them, and if it has
not, the part that fits is stored and the stream stops being good. -/
def OFStream.write (file : OFStream) (data : List Nat) : OFStream :=
  if file.good then
    if data.length ≤ file.room then
      { good := true, room := file.room - data.length, bytes := file.bytes ++ data }
    else
      { good := false, room := 0, bytes := file.bytes ++ data.take file.room }
  else file

/-- The directory loop `for (size_t i = 0; i < imageList.size(); ++i)` of `WriteIcoFile`:
`k` iterations remain, `i` is the loop counter, `offset` the running `size_t` offset and
`file` the stream. The result is the final `offset` and `file`. -/
def entryLoop (imageList : List (List Nat)) :
    Nat → Nat → Nat → OFStream → Option (Nat × OFStream)
  | 0, _, offset, file => some (offset, file)
  | k + 1, i, offset, file =>
    match TARGET_SIZES[i]?, imageList[i]? with
    | some size, some data =>
      let width := if size ≥ 256 then 0 else toUInt8 size
      let height := if size ≥ 256 then 0 else toUInt8 size
      let imageSize := toUInt32 data.length
      let imageOffset := toUInt32 offset
      let file := file.write (entryImage width height 0 0 1 32 imageSize imageOffset)
      entryLoop imageList k (i + 1) ((offset + data.length) % SIZE_MAX1) file
    | _, _ => none

/-- The payload loop `for (auto const& data : imageList) file.write(data...)`. -/
def payloadLoop : List (List Nat) → OFStream → OFStream
  | [], file => file
  | data :: rest, file => payloadLoop rest (file.write data)

/-- The method `ImageConverter::WriteIcoFile`. `device` is the outcome of constructing the
`std::ofstream`: `none` when `is_open()` is false, `some room` when the file opened on a
device that accepts `room` bytes. The result is the returned `bool` (`false` when the file
did not open, `file.good()` otherwise) and the bytes written to the file; `none` stands
for undefined behaviour. -/
def WriteIcoFile (imageList : List (List Nat)) (device : Option Nat) :
    Option (Bool × List Nat) :=
  match device with
  | none => some (false, [])
  | some room =>
    let file : OFStream := { good := true, room := room, bytes := [] }
    let file := file.write (headerImage 0 1 (toUInt16 imageList.length))
    let dataStart := (6 + imageList.length * 16) % SIZE_MAX1
    match entryLoop imageList imageList.length 0 dataStart file with
    | none => none
    | some (_, file) =>
      let file := payloadLoop imageList file
      some (file.good, file.bytes)

/-! ## GDI+ and the file system (external) -/

/-- A few values of the GDI+ enumeration `Status`; `Ok` is the only success value. -/
inductive Status where
  | Ok
  | GenericError
  | InvalidParameter
  | OutOfMemory
  | FileNotFound
  | UnknownImageFormat
  deriving DecidableEq, Repr

/-- A GDI+ `Bitmap`: what `GetLastStatus`, `GetWidth` and `GetHeight` report, and the
32-bit ARGB pixels in row-major order. -/
structure Bitmap where
  lastStatus : Status
  width : Nat
  height : Nat
  pixels : List Nat
  deriving DecidableEq, Repr

/-- A GDI+ `Rect`. -/
structure Rect where
  X : Int
  Y : Int
  Width : Int
  Height : Int
  deriving DecidableEq, Repr

/-- An element of the array filled by `GetImageEncoders`. -/
structure ImageCodecInfo where
  MimeType : String
  Clsid : Nat
  deriving DecidableEq, Repr

/-- A `WIN32_FIND_DATAW` record, as far as `wmain` reads it. -/
structure FindData where
  dwFileAttributes : Nat
  cFileName : List Char
  deriving DecidableEq, Repr

/-- The external world of the program: GDI+ and the Win32 file API.

* `loadBitmap path` is the object built by `Bitmap(path)`;
* `drawRegion source dest destRect srcx srcy srcw srch` is the pixel content of `dest`
  after `Graphics(dest).DrawImage(source, destRect, srcx, srcy, srcw, srch, UnitPixel)`
  under the modes set in `MakeSquareFromCenter`;
* `drawFit source dest destRect` is the pixel content of `dest` after
  `Graphics(dest).DrawImage(source, destRect)` under the modes set in
  `CreateResizedVersion`;
* `encoders` is the array returned by `GetImageEncoders`;
* `Save image clsid` is the `Status` returned by `image->Save(stream, clsid, nullptr)`
  on a fresh memory stream and the content of that stream afterwards (`clsid` is
  `none` when `FindPngEncoder` left it unset);
* `openForWrite path` is the outcome of `std::ofstream(path, std::ios::binary)`: `none`
  when the file does not open, `some room` when it opens on a device that accepts `room`
  bytes;
* `moduleFileName` is the string returned by `GetModuleFileNameW`;
* `findFiles pattern` lists the records delivered by `FindFirstFileW`/`FindNextFileW`
  for `pattern`, the empty list standing for `INVALID_HANDLE_VALUE`. -/
structure Gdi where
  loadBitmap : List Char → Bitmap
  drawRegion : Bitmap → Bitmap → Rect → Int → Int → Int → Int → List Nat
  drawFit : Bitmap → Bitmap → Rect → List Nat
  encoders : List ImageCodecInfo
  Save : Bitmap → Option Nat → Status × List Nat
  openForWrite : List Char → Option Nat
  moduleFileName : List Char
  findFiles : List Char → List FindData

/-- Conversion of a `UINT` to `INT` (two's complement). -/
def toINT (u : Nat) : Int := if u < 2147483648 then (u : Int) else (u : Int) - 4294967296

/-- The constructor `Bitmap(INT width, INT height, PixelFormat32bppARGB)`: a blank bitmap
of the given size; GDI+ reports `InvalidParameter` for a non-positive size. -/
def Bitmap.create (width height : Int) : Bitmap :=
  { lastStatus := if 0 < width ∧ 0 < height then Status.Ok else Status.InvalidParameter
    width := width.toNat
    height := height.toNat
    pixels := List.replicate (width.toNat * height.toNat) 0 }

/-- The method `Bitmap::GetWidth`, of return type `UINT`. -/
def Bitmap.GetWidth (b : Bitmap) : Nat := b.width % 4294967296

/-- The method `Bitmap::GetHeight`, of return type `UINT`. -/
def Bitmap.GetHeight (b : Bitmap) : Nat := b.height % 4294967296

/-! ## The image pipeline -/

/-- The locals `squareSize`, `startX`, `startY` of `MakeSquareFromCenter`, computed in
`UINT` arithmetic from `w = GetWidth()` and `h = GetHeight()`. -/
def squareLocals (w h : Nat) : Nat × Nat × Nat :=
  let squareSize := if w < h then w else h
  let startX := (w + 4294967296 - squareSize) % 4294967296 / 2
  let startY := (h + 4294967296 - squareSize) % 4294967296 / 2
  (squareSize, startX, startY)

/-- The method `ImageConverter::MakeSquareFromCenter`. -/
def MakeSquareFromCenter (gdi : Gdi) (source : Bitmap) : Bitmap :=
  let w := source.GetWidth
  let h := source.GetHeight
  let (squareSize, startX, startY) := squareLocals w h
  let result := Bitmap.create (toINT squareSize) (toINT squareSize)
  let targetRect : Rect := ⟨0, 0, toINT squareSize, toINT squareSize⟩
  { result with
    pixels := gdi.drawRegion source result targetRect (toINT startX) (toINT startY)
      (toINT squareSize) (toINT squareSize) }

/-- The method `ImageConverter::CreateResizedVersion`. -/
def CreateResizedVersion (gdi : Gdi) (source : Bitmap) (targetSize : Int) : Bitmap :=
  let result := Bitmap.create targetSize targetSize
  let targetRect : Rect := ⟨0, 0, targetSize, targetSize⟩
  { result with pixels := gdi.drawFit source result targetRect }

/-- The loop of `FindPngEncoder` over the encoder array: the `Clsid` of the first entry
whose `MimeType` is `image/png`, or `none` when `*clsid` is never assigned. -/
def findPngLoop : List ImageCodecInfo → Option Nat
  | [] => none
  | info :: rest => if info.MimeType = "image/png" then some info.Clsid else findPngLoop rest

/-- The method `ImageConverter::FindPngEncoder`. -/
def FindPngEncoder (gdi : Gdi) : Option Nat := findPngLoop gdi.encoders

/-- The method `ImageConverter::ConvertToPngBytes`. The `Status` of `Save` is dropped;
`Stat` gives the stream length, `data` is a zero-filled vector of that length, and
`Read` copies `static_cast<ULONG>(data.size())` bytes of the stream into it. -/
def ConvertToPngBytes (gdi : Gdi) (image : Bitmap) : List Nat :=
  let encoderClsid := FindPngEncoder gdi
  let stream := (gdi.Save image encoderClsid).2
  let size := stream.length % SIZE_MAX1
  let bytesRead := size % 4294967296
  stream.take bytesRead ++ List.replicate (size - bytesRead) 0

/-- A step of one conversion, in the order the steps run. -/
inductive Step where
  | crop
  | resize (targetSize : Int)
  | encode (data : List Nat)
  | write (imageList : List (List Nat))
  deriving DecidableEq, Repr

/-- What one call of `ProcessPngToIco` did: the returned `bool`, the steps it ran and
the content of the output file (`none` when no output file was opened). -/
structure Outcome where
  ret : Bool
  steps : List Step
  output : Option (List Nat)
  deriving DecidableEq, Repr

/-- The loop `for (int size : TARGET_SIZES)` of `ProcessPngToIco`: the state is
`imageDataList` and the steps run so far. -/
def variantLoop (gdi : Gdi) (squareImage : Bitmap) :
    List Int → List (List Nat) × List Step → List (List Nat) × List Step
  | [], st => st
  | size :: rest, (imageDataList, steps) =>
    let resized := CreateResizedVersion gdi squareImage size
    let data := ConvertToPngBytes gdi resized
    variantLoop gdi squareImage rest
      (imageDataList ++ [data], steps ++ [Step.resize size, Step.encode data])

/-- The method `ImageConverter::ProcessPngToIco`. -/
def ProcessPngToIco (gdi : Gdi) (inputFile outputFile : List Char) : Option Outcome :=
  let sourceImage := gdi.loadBitmap inputFile
  if sourceImage.lastStatus ≠ Status.Ok then
    some { ret := false, steps := [], output := none }
  else
    let squareImage := MakeSquareFromCenter gdi sourceImage
    let (imageDataList, steps) := variantLoop gdi squareImage TARGET_SIZES ([], [Step.crop])
    let device := gdi.openForWrite outputFile
    match WriteIcoFile imageDataList device with
    | none => none
    | some (ret, file) =>
      some { ret := ret
             steps := steps ++ [Step.write imageDataList]
             output := if device.isSome then some file else none }

/-! ## The command line -/

/-- The call `s.find_last_of(cs)`: the last position of `s` holding one of `cs`. -/
def findLastOf (s : List Char) (cs : List Char) : Option Nat :=
  let hits := (List.range s.length).filter (fun i => cs.contains (s.getD i ' '))
  hits.getLast?

/-- The function `GetExeDirectory`. -/
def GetExeDirectory (gdi : Gdi) : List Char :=
  let full := gdi.moduleFileName
  match findLastOf full ['\\', '/'] with
  | none => ['.', '\\']
  | some pos => full.take (pos + 1)

/-- The function `HasPngExtension`; `towlower` is `Char.toLower`. -/
def HasPngExtension (name : List Char) : Bool :=
  match findLastOf name ['.'] with
  | none => false
  | some dot =>
    let ext := (name.drop (dot + 1)).map Char.toLower
    ext == ['p', 'n', 'g']

/-- The function `ReplaceWithIco`. -/
def ReplaceWithIco (pngPath : List Char) : List Char :=
  match findLastOf pngPath ['.'] with
  | none => pngPath ++ ['.', 'i', 'c', 'o']
  | some dot => pngPath.take dot ++ ['.', 'i', 'c', 'o']

/-- The constant `FILE_ATTRIBUTE_DIRECTORY`. -/
def FILE_ATTRIBUTE_DIRECTORY : Nat := 16

/-- The `do ... while (FindNextFileW(hFind, &fd))` loop of `wmain`, one iteration per
record; the state is the pair of counters `total` and `ok`. -/
def batchLoop (gdi : Gdi) (dir : List Char) : List FindData → Nat × Nat → Option (Nat × Nat)
  | [], st => some st
  | fd :: rest, (total, ok) =>
    if fd.dwFileAttributes &&& FILE_ATTRIBUTE_DIRECTORY = 0 ∧ HasPngExtension fd.cFileName then
      let inFile := dir ++ fd.cFileName
      let outFile := ReplaceWithIco inFile
      match ProcessPngToIco gdi inFile outFile with
      | none => none
      | some r => batchLoop gdi dir rest (total + 1, if r.ret then ok + 1 else ok)
    else batchLoop gdi dir rest (total, ok)

/-- The function `wmain`: `argv` is the argument vector (`argc` its length), the result
the exit code. -/
def wmain (gdi : Gdi) (argv : List (List Char)) : Option Int :=
  if argv.length = 1 then
    let dir := GetExeDirectory gdi
    let pattern := dir ++ ['*', '.', 'p', 'n', 'g']
    match gdi.findFiles pattern with
    | [] => some 1
    | fd :: more =>
      match batchLoop gdi dir (fd :: more) (0, 0) with
      | none => none
      | some (total, ok) =>
        if total = 0 then some 1
        else some (if ok = total then 0 else (if ok > 0 then 2 else 1))
  else if argv.length = 2 then
    let input := argv.getD 1 []
    if !HasPngExtension input then some 1
    else
      let output := ReplaceWithIco input
      match ProcessPngToIco gdi input output with
      | none => none
      | some r => if r.ret then some 0 else some 1
  else some 1

/-! ## Reading a container (used to state the properties of `WriteIcoFile`) -/

/-- The declared width/height byte of a ladder size: 0 for 256 and above. -/
def declaredByte (size : Int) : Nat := if size ≥ 256 then 0 else size.toNat

/-- The position at which payload `i` starts when the payloads follow a 6-byte header
and 16-byte directory entries back to back. -/
def payloadOffset (imageList : List (List Nat)) (i : Nat) : Nat :=
  6 + 16 * imageList.length + ((imageList.map List.length).take i).sum

/-- The little-endian 16-bit number at position `pos` of `file`. -/
def readU16 (file : List Nat) (pos : Nat) : Nat :=
  file.getD pos 0 + 256 * file.getD (pos + 1) 0

/-- The little-endian 32-bit number at position `pos` of `file`. -/
def readU32 (file : List Nat) (pos : Nat) : Nat :=
  file.getD pos 0 + 256 * file.getD (pos + 1) 0 + 65536 * file.getD (pos + 2) 0 +
    16777216 * file.getD (pos + 3) 0

/-- The entry count stored in the header of `file`. -/
def entryCount (file : List Nat) : Nat := readU16 file 4

/-- The payload length stored in directory entry `i` of `file`. -/
def entryLength (file : List Nat) (i : Nat) : Nat := readU32 file (6 + 16 * i + 8)

/-- The payload offset stored in directory entry `i` of `file`. -/
def entryOffset (file : List Nat) (i : Nat) : Nat := readU32 file (6 + 16 * i + 12)

/-- The bytes appended by the directory loop of `WriteIcoFile` when it runs over the
sizes `sizes` and the payloads `imageList` from the running offset `offset`. -/
def dirImage : List Int → List (List Nat) → Nat → List Nat
  | size :: sizes, data :: rest, offset =>
    entryImage (if size ≥ 256 then 0 else toUInt8 size) (if size ≥ 256 then 0 else toUInt8 size)
      0 0 1 32 (toUInt32 data.length) (toUInt32 offset) ++
      dirImage sizes rest ((offset + data.length) % SIZE_MAX1)
  | _, _, _ => []

/-! ## Closed forms, counts and a sample world (used in the statements) -/

/-- Closed form of the bytes `WriteIcoFile` passes to the stream. -/
def icoImage (imageList : List (List Nat)) : List Nat :=
  headerImage 0 1 (toUInt16 imageList.length) ++
    dirImage TARGET_SIZES imageList ((6 + imageList.length * 16) % SIZE_MAX1) ++
    imageList.flatten

/-- The `Clsid` that `FindPngEncoder` must deliver, read off the encoder array: that of
the first encoder whose MIME type is `image/png`, if any. -/
def pngClsid (gdi : Gdi) : Option Nat :=
  (gdi.encoders.find? (fun info => decide (info.MimeType = "image/png"))).map
    ImageCodecInfo.Clsid

/-- The square image resized to `size`, in terms of GDI+ alone: a `size × size` bitmap
holding what `DrawImage(square, Rect(0, 0, size, size))` draws on a blank `size × size`
bitmap. -/
def specResized (gdi : Gdi) (squareImage : Bitmap) (size : Int) : Bitmap :=
  { lastStatus := Status.Ok
    width := size.toNat
    height := size.toNat
    pixels := gdi.drawFit squareImage
      { lastStatus := Status.Ok
        width := size.toNat
        height := size.toNat
        pixels := List.replicate (size.toNat * size.toNat) 0 }
      { X := 0, Y := 0, Width := size, Height := size } }

/-- The encoding of `image`, in terms of GDI+ alone: the bytes the stream holds after
`Save` with the PNG encoder, whatever status `Save` returns. -/
def specEncoding (gdi : Gdi) (image : Bitmap) : List Nat :=
  (gdi.Save image (pngClsid gdi)).2

/-- The stream that opened on a device accepting `room` bytes, after the bytes `emitted`
were passed to `write`. -/
def streamAfter (room : Nat) (emitted : List Nat) : OFStream :=
  { good := decide (emitted.length ≤ room)
    room := room - emitted.length
    bytes := emitted.take room }

/-- The payloads found by reading a container: the entry count from the header and, for
each entry, the `length` bytes at the position `offset` that the entry records. -/
def readPayloads (file : List Nat) : List (List Nat) :=
  (List.range (entryCount file)).map
    (fun i => (file.drop (entryOffset file i)).take (entryLength file i))

/-- The payloads of one conversion: for each ladder size, the encoding of the square
image resized to that size. -/
def ladderPayloads (gdi : Gdi) (squareImage : Bitmap) : List (List Nat) :=
  TARGET_SIZES.map (fun size => ConvertToPngBytes gdi (CreateResizedVersion gdi squareImage size))

/-- The steps of the variant loop over `sizes`. -/
def ladderSteps (gdi : Gdi) (squareImage : Bitmap) (sizes : List Int) : List Step :=
  sizes.flatMap (fun size =>
    [Step.resize size, Step.encode (ConvertToPngBytes gdi (CreateResizedVersion gdi squareImage size))])

/-- A sample world: the module lives in `C:\tools`, whose listing has three files named
`*.png`; `bad.png` does not decode, the others decode to a 100 × 60 image; the PNG encoder
runs out of memory on a 256 × 256 bitmap and succeeds, with a four-byte stream, on the
others; every output file opens on a device with room for 4096 bytes. -/
def sampleGdi : Gdi where
  loadBitmap := fun path =>
    if path = "C:\\tools\\bad.png".toList then ⟨Status.UnknownImageFormat, 0, 0, []⟩
    else ⟨Status.Ok, 100, 60, []⟩
  drawRegion := fun _ _ _ _ _ _ _ => []
  drawFit := fun _ _ _ => []
  encoders := [⟨"image/bmp", 0⟩, ⟨"image/png", 6⟩]
  Save := fun image _ =>
    if image.width = 256 then (Status.OutOfMemory, []) else (Status.Ok, [137, 80, 78, 71])
  openForWrite := fun _ => some 4096
  moduleFileName := "C:\\tools\\png2ico.exe".toList
  findFiles := fun _ => [⟨32, "a.png".toList⟩, ⟨32, "bad.png".toList⟩, ⟨32, "c.PNG".toList⟩]

/-- The records of a listing that the batch loop tries to convert: those that are not a
directory and whose name has the extension `png`. -/
def attempted (found : List FindData) : List FindData :=
  found.filter (fun fd =>
    decide (fd.dwFileAttributes &&& FILE_ATTRIBUTE_DIRECTORY = 0 ∧ HasPngExtension fd.cFileName))

/-- The attempted records whose conversion returns `true`. -/
def converted (gdi : Gdi) (dir : List Char) (found : List FindData) : List FindData :=
  (attempted found).filter (fun fd =>
    decide ((ProcessPngToIco gdi (dir ++ fd.cFileName) (ReplaceWithIco (dir ++ fd.cFileName))).map
      Outcome.ret = some true))

/-- The number of conversions a batch run attempts. -/
def batchTotal (gdi : Gdi) : Nat :=
  (attempted (gdi.findFiles (GetExeDirectory gdi ++ ['*', '.', 'p', 'n', 'g']))).length

/-- The number of conversions of a batch run that succeed. -/
def batchOk (gdi : Gdi) : Nat :=
  (converted gdi (GetExeDirectory gdi)
    (gdi.findFiles (GetExeDirectory gdi ++ ['*', '.', 'p', 'n', 'g']))).length

/-! ## Auxiliary lemmas -/

theorem u32le_toUInt32 (v : Nat) : u32le (toUInt32 v) = u32le v := by
  simp only [u32le, toUInt32]
  congr 1
  · omega
  congr 1
  · omega
  congr 1
  · omega
  congr 1
  omega

theorem write_streamAfter (room : Nat) (emitted data : List Nat) :
    (streamAfter room emitted).write data = streamAfter room (emitted ++ data) := by
  by_cases hg : emitted.length ≤ room
  · by_cases hd : data.length ≤ room - emitted.length
    · have h1 : emitted.length + data.length ≤ room := by omega
      have h2 : room - emitted.length - data.length = room - (emitted.length + data.length) := by
        omega
      simp [streamAfter, OFStream.write, hg, hd, h1, h2, List.take_of_length_le]
    · have h1 : ¬ (emitted.length + data.length ≤ room) := by omega
      have h2 : room - (emitted.length + data.length) = 0 := by omega
      simp [streamAfter, OFStream.write, hg, hd, h1, h2, List.take_append_eq_append_take,
        List.take_of_length_le]
  · have h1 : ¬ (emitted.length + data.length ≤ room) := by omega
    have h2 : room - (emitted.length + data.length) = 0 := by omega
    have h3 : room - emitted.length = 0 := by omega
    simp [streamAfter, OFStream.write, hg, h1, h2, h3, List.take_append_eq_append_take]

theorem payloadLoop_eq (imageList : List (List Nat)) (room : Nat) (emitted : List Nat) :
    payloadLoop imageList (streamAfter room emitted) =
      streamAfter room (emitted ++ imageList.flatten) := by
  induction imageList generalizing emitted with
  | nil => simp [payloadLoop]
  | cons data rest ih => simp [payloadLoop, write_streamAfter, ih]

theorem entryLoop_eq (imageList : List (List Nat)) (k i offset room : Nat) (emitted : List Nat)
    (hk : i + k = imageList.length) (hn : imageList.length ≤ 7) :
    ∃ last, entryLoop imageList k i offset (streamAfter room emitted) =
      some (last, streamAfter room
        (emitted ++ dirImage (TARGET_SIZES.drop i) (imageList.drop i) offset)) := by
  induction k generalizing i offset emitted with
  | zero =>
    have hi : imageList.length ≤ i := by omega
    refine ⟨offset, ?_⟩
    rw [List.drop_eq_nil_of_le hi]
    cases h : TARGET_SIZES.drop i <;> simp [entryLoop, dirImage]
  | succ k ih =>
    have hi : i < imageList.length := by omega
    have hi7 : i < TARGET_SIZES.length := by
      have : TARGET_SIZES.length = 7 := rfl
      omega
    obtain ⟨last, hlast⟩ := ih (i + 1) ((offset + imageList[i].length) % SIZE_MAX1)
      (emitted ++ entryImage (if TARGET_SIZES[i] ≥ 256 then 0 else toUInt8 TARGET_SIZES[i])
        (if TARGET_SIZES[i] ≥ 256 then 0 else toUInt8 TARGET_SIZES[i]) 0 0 1 32
        (toUInt32 imageList[i].length) (toUInt32 offset)) (by omega)
    refine ⟨last, ?_⟩
    rw [entryLoop, List.getElem?_eq_getElem hi7, List.getElem?_eq_getElem hi]
    simp only []
    rw [write_streamAfter, hlast, List.drop_eq_getElem_cons hi7, List.drop_eq_getElem_cons hi,
      dirImage, List.append_assoc]

theorem entryImage_length (a b c d e f g h : Nat) : (entryImage a b c d e f g h).length = 16 := by
  simp [entryImage, u16le, u32le]

theorem dirImage_length (sizes : List Int) (imageList : List (List Nat)) (offset : Nat)
    (hs : imageList.length ≤ sizes.length) :
    (dirImage sizes imageList offset).length = 16 * imageList.length := by
  induction imageList generalizing sizes offset with
  | nil => cases sizes <;> simp [dirImage]
  | cons data rest ih =>
    cases sizes with
    | nil => simp at hs
    | cons size sizes =>
      have hs2 : rest.length ≤ sizes.length := by simpa using hs
      simp only [dirImage, List.length_append, entryImage_length, ih sizes _ hs2,
        List.length_cons]
      omega

theorem dirImage_chunk (sizes : List Int) (imageList : List (List Nat)) (offset j : Nat)
    (hj : j < imageList.length) (hs : imageList.length ≤ sizes.length) :
    ((dirImage sizes imageList offset).drop (16 * j)).take 16 =
      entryImage (if sizes.getD j 0 ≥ 256 then 0 else toUInt8 (sizes.getD j 0))
        (if sizes.getD j 0 ≥ 256 then 0 else toUInt8 (sizes.getD j 0)) 0 0 1 32
        (toUInt32 (imageList.getD j []).length)
        (toUInt32 (offset + ((imageList.map List.length).take j).sum)) := by
  induction imageList generalizing sizes offset j with
  | nil => simp at hj
  | cons data rest ih =>
    cases sizes with
    | nil => simp at hs
    | cons size sizes =>
      have hs2 : rest.length ≤ sizes.length := by simpa using hs
      cases j with
      | zero =>
        simp only [dirImage, Nat.mul_zero, List.drop_zero, List.getD_cons_zero, List.take_zero,
          List.sum_nil, Nat.add_zero]
        rw [List.take_append_of_le_length (by rw [entryImage_length])]
        rw [List.take_of_length_le (by rw [entryImage_length])]
      | succ j =>
        have hj2 : j < rest.length := by simpa using hj
        have hdrop : ∀ (e t : List Nat), e.length = 16 →
            (e ++ t).drop (16 * (j + 1)) = t.drop (16 * j) := by
          intro e t he
          have h16 : 16 * (j + 1) - 16 = 16 * j := by omega
          rw [List.drop_append_eq_append_drop, List.drop_eq_nil_of_le (by omega), he, h16,
            List.nil_append]
        simp only [dirImage]
        rw [hdrop _ _ (entryImage_length _ _ _ _ _ _ _ _), ih sizes _ j hj2 hs2]
        simp only [List.getD_cons_succ, List.map_cons, List.take_succ_cons, List.sum_cons]
        congr 1
        simp only [toUInt32, SIZE_MAX1]
        omega

theorem entryLoop_some_bound (imageList : List (List Nat)) (k i offset : Nat) (file : OFStream)
    (r : Nat × OFStream) (h : entryLoop imageList k i offset file = some r) :
    k = 0 ∨ i + k ≤ 7 := by
  induction k generalizing i offset file with
  | zero => exact Or.inl rfl
  | succ k ih =>
    right
    rw [entryLoop] at h
    by_cases hi7 : i < TARGET_SIZES.length
    · cases hd : imageList[i]? with
      | none => simp [hd, List.getElem?_eq_getElem hi7] at h
      | some data =>
        simp only [hd, List.getElem?_eq_getElem hi7] at h
        have h7 : TARGET_SIZES.length = 7 := rfl
        rcases ih _ _ _ h with h0 | h1
        · omega
        · omega
    · have hnone : TARGET_SIZES[i]? = none := List.getElem?_eq_none (by omega)
      simp [hnone] at h

theorem WriteIcoFile_eq (imageList : List (List Nat)) (room : Nat)
    (hn : imageList.length ≤ 7) :
    WriteIcoFile imageList (some room) =
      some (decide ((icoImage imageList).length ≤ room), (icoImage imageList).take room) := by
  have h0 : ({ good := true, room := room, bytes := [] } : OFStream) = streamAfter room [] := by
    simp [streamAfter]
  obtain ⟨last, hlast⟩ := entryLoop_eq imageList imageList.length 0
    ((6 + imageList.length * 16) % SIZE_MAX1) room
    ([] ++ headerImage 0 1 (toUInt16 imageList.length)) (by omega) hn
  simp only [List.nil_append, List.drop_zero] at hlast
  simp only [WriteIcoFile, h0, write_streamAfter, List.nil_append, hlast, payloadLoop_eq]
  simp only [icoImage, streamAfter]

theorem WriteIcoFile_fits (imageList : List (List Nat)) (room : Nat)
    (hn : imageList.length ≤ 7) (hroom : (icoImage imageList).length ≤ room) :
    WriteIcoFile imageList (some room) = some (true, icoImage imageList) := by
  rw [WriteIcoFile_eq imageList room hn, List.take_of_length_le hroom]
  simp [hroom]

theorem WriteIcoFile_some_length (imageList : List (List Nat)) (room : Nat)
    (r : Bool × List Nat) (h : WriteIcoFile imageList (some room) = some r) :
    imageList.length ≤ 7 := by
  simp only [WriteIcoFile] at h
  cases hl : entryLoop imageList imageList.length 0 ((6 + imageList.length * 16) % SIZE_MAX1)
      (OFStream.write { good := true, room := room, bytes := [] }
        (headerImage 0 1 (toUInt16 imageList.length))) with
  | none => simp [hl] at h
  | some q =>
    rcases entryLoop_some_bound _ _ _ _ _ _ hl with h0 | h1
    · omega
    · omega

theorem WriteIcoFile_true (imageList : List (List Nat)) (room : Nat) (file : List Nat)
    (h : WriteIcoFile imageList (some room) = some (true, file)) :
    imageList.length ≤ 7 ∧ (icoImage imageList).length ≤ room ∧ file = icoImage imageList := by
  have hn := WriteIcoFile_some_length imageList room _ h
  rw [WriteIcoFile_eq imageList room hn] at h
  obtain ⟨hg, hf⟩ := Prod.mk.inj (Option.some.inj h)
  have hroom : (icoImage imageList).length ≤ room := of_decide_eq_true hg
  exact ⟨hn, hroom, by rw [← hf, List.take_of_length_le hroom]⟩

theorem headerImage_length (a b c : Nat) : (headerImage a b c).length = 6 := by
  simp [headerImage, u16le]

theorem icoImage_split (imageList : List (List Nat)) (hn : imageList.length ≤ 7) :
    (icoImage imageList).take (6 + 16 * imageList.length) =
        headerImage 0 1 (toUInt16 imageList.length) ++
          dirImage TARGET_SIZES imageList ((6 + imageList.length * 16) % SIZE_MAX1) ∧
      (icoImage imageList).drop (6 + 16 * imageList.length) = imageList.flatten := by
  have hlen : (headerImage 0 1 (toUInt16 imageList.length) ++
      dirImage TARGET_SIZES imageList ((6 + imageList.length * 16) % SIZE_MAX1)).length =
      6 + 16 * imageList.length := by
    rw [List.length_append, headerImage_length, dirImage_length _ _ _ (by simpa [TARGET_SIZES] using hn)]
  constructor
  · rw [icoImage, ← hlen, List.take_left]
  · rw [icoImage, ← hlen, List.drop_left]

theorem icoImage_length (imageList : List (List Nat)) (hn : imageList.length ≤ 7) :
    (icoImage imageList).length = 6 + 16 * imageList.length + (imageList.map List.length).sum := by
  rw [icoImage, List.length_append, List.length_append, headerImage_length,
    dirImage_length _ _ _ (by simpa [TARGET_SIZES] using hn), List.length_flatten]

theorem icoImage_chunk (imageList : List (List Nat)) (i : Nat) (hn : imageList.length ≤ 7)
    (hi : i < imageList.length) :
    ((icoImage imageList).drop (6 + 16 * i)).take 16 =
      entryImage (if TARGET_SIZES.getD i 0 ≥ 256 then 0 else toUInt8 (TARGET_SIZES.getD i 0))
        (if TARGET_SIZES.getD i 0 ≥ 256 then 0 else toUInt8 (TARGET_SIZES.getD i 0)) 0 0 1 32
        (toUInt32 (imageList.getD i []).length) (toUInt32 (payloadOffset imageList i)) := by
  have hs : imageList.length ≤ TARGET_SIZES.length := by simpa [TARGET_SIZES] using hn
  have hd := dirImage_length TARGET_SIZES imageList ((6 + imageList.length * 16) % SIZE_MAX1) hs
  have hc := dirImage_chunk TARGET_SIZES imageList ((6 + imageList.length * 16) % SIZE_MAX1) i hi hs
  have h6 : 6 + 16 * i - 6 = 16 * i := by omega
  rw [icoImage, List.append_assoc, List.drop_append_eq_append_drop,
    List.drop_eq_nil_of_le (by rw [headerImage_length]; omega), headerImage_length, h6,
    List.nil_append, List.drop_append_of_le_length (by omega),
    List.take_append_of_le_length (by rw [List.length_drop]; omega), hc]
  congr 1
  simp only [toUInt32, SIZE_MAX1, payloadOffset]
  omega

theorem getD_of_chunk (file chunk : List Nat) (p m t : Nat)
    (h : (file.drop p).take m = chunk) (ht : t < chunk.length) :
    file.getD (p + t) 0 = chunk.getD t 0 := by
  subst h
  have htm : t < m := by
    have := List.length_take_le m (file.drop p)
    omega
  simp only [List.getD_eq_getElem?_getD, List.getElem?_take_of_lt htm, List.getElem?_drop]

theorem readU16_u16le (file : List Nat) (p v : Nat) (rest : List Nat)
    (h : file.drop p = u16le v ++ rest) : readU16 file p = v % 65536 := by
  have hc : (file.drop p).take 2 = u16le v := by rw [h]; simp [u16le]
  have h0 := getD_of_chunk file _ p 2 0 hc (by simp [u16le])
  have h1 := getD_of_chunk file _ p 2 1 hc (by simp [u16le])
  simp only [u16le, List.getD_cons_zero, List.getD_cons_succ, Nat.add_zero] at h0 h1
  rw [readU16, h0, h1]
  omega

theorem readU32_chunk (file : List Nat) (p t v : Nat) (pre post : List Nat) (m : Nat)
    (h : (file.drop p).take m = pre ++ u32le v ++ post) (ht : pre.length = t) :
    readU32 file (p + t) = v % 4294967296 := by
  subst ht
  have hl : (pre ++ u32le v ++ post).length = pre.length + 4 + post.length := by
    simp only [u32le, List.length_append, List.length_cons, List.length_nil]
  have hg : ∀ s, s < 4 → file.getD (p + pre.length + s) 0 = (u32le v).getD s 0 := by
    intro s hs
    rw [Nat.add_assoc, getD_of_chunk file _ p m (pre.length + s) h (by omega)]
    simp only [List.getD_eq_getElem?_getD, List.append_assoc]
    rw [List.getElem?_append_right (by omega), Nat.add_sub_cancel_left,
      List.getElem?_append_left (by simp [u32le]; omega)]
  have h0 := hg 0 (by omega)
  have h1 := hg 1 (by omega)
  have h2 := hg 2 (by omega)
  have h3 := hg 3 (by omega)
  simp only [u32le, List.getD_cons_zero, List.getD_cons_succ, Nat.add_zero] at h0 h1 h2 h3
  rw [readU32, h0, h1, h2, h3]
  omega

theorem entryCount_icoImage (imageList : List (List Nat)) :
    entryCount (icoImage imageList) = imageList.length % 65536 := by
  have h := readU16_u16le (icoImage imageList) 4 (toUInt16 imageList.length)
    (dirImage TARGET_SIZES imageList ((6 + imageList.length * 16) % SIZE_MAX1) ++
      imageList.flatten) (by simp [icoImage, headerImage, u16le])
  rw [entryCount, h, toUInt16]
  omega

theorem entryLength_icoImage (imageList : List (List Nat)) (i : Nat)
    (hn : imageList.length ≤ 7) (hi : i < imageList.length) :
    entryLength (icoImage imageList) i = (imageList.getD i []).length % 4294967296 := by
  have hc := icoImage_chunk imageList i hn hi
  rw [entryImage] at hc
  rw [entryLength, readU32_chunk _ (6 + 16 * i) 8 _ _ _ 16 hc (by simp [u16le]), toUInt32]
  omega

theorem entryOffset_icoImage (imageList : List (List Nat)) (i : Nat)
    (hn : imageList.length ≤ 7) (hi : i < imageList.length) :
    entryOffset (icoImage imageList) i = payloadOffset imageList i % 4294967296 := by
  have hc := icoImage_chunk imageList i hn hi
  rw [entryImage, ← List.append_nil (_ ++ u32le (toUInt32 (payloadOffset imageList i)))] at hc
  rw [entryOffset, readU32_chunk _ (6 + 16 * i) 12 _ _ _ 16 hc (by simp [u16le, u32le]),
    toUInt32]
  omega

theorem payloadOffset_succ (imageList : List (List Nat)) (i : Nat) (hi : i < imageList.length) :
    payloadOffset imageList (i + 1) = payloadOffset imageList i + (imageList.getD i []).length := by
  have hi2 : i < (imageList.map List.length).length := by simpa using hi
  simp only [payloadOffset, List.take_succ, List.sum_append, List.getElem?_eq_getElem hi2,
    List.getElem_map, Option.toList, List.sum_cons, List.sum_nil,
    List.getD_eq_getElem?_getD, List.getElem?_eq_getElem hi, Option.getD_some]
  omega

theorem payloadOffset_length (imageList : List (List Nat)) :
    payloadOffset imageList imageList.length =
      6 + 16 * imageList.length + (imageList.map List.length).sum := by
  rw [payloadOffset, List.take_of_length_le (by simp)]

theorem sum_take_mono (l : List Nat) (i j : Nat) (hij : i ≤ j) :
    (l.take i).sum ≤ (l.take j).sum := by
  induction l generalizing i j with
  | nil => simp
  | cons a l ih =>
    cases i with
    | zero => simp
    | succ i =>
      cases j with
      | zero => omega
      | succ j =>
        simp only [List.take_succ_cons, List.sum_cons]
        have := ih i j (by omega)
        omega

theorem payloadOffset_mono (imageList : List (List Nat)) (i j : Nat) (hij : i ≤ j) :
    payloadOffset imageList i ≤ payloadOffset imageList j := by
  have := sum_take_mono (imageList.map List.length) i j hij
  simp only [payloadOffset]
  omega

theorem payload_icoImage (imageList : List (List Nat)) (i : Nat)
    (hn : imageList.length ≤ 7) (hi : i < imageList.length) :
    ((icoImage imageList).drop (payloadOffset imageList i)).take (imageList.getD i []).length =
      imageList.getD i [] := by
  have hsplit := (icoImage_split imageList hn).2
  rw [payloadOffset, ← List.drop_drop, hsplit, List.drop_sum_flatten,
    List.drop_eq_getElem_cons hi, List.flatten_cons, List.getD_eq_getElem?_getD,
    List.getElem?_eq_getElem hi, Option.getD_some, List.take_left]

theorem declaredByte_TARGET_SIZES (i : Nat) (hi : i < 7) :
    (if TARGET_SIZES.getD i 0 ≥ 256 then 0 else toUInt8 (TARGET_SIZES.getD i 0)) =
      declaredByte (TARGET_SIZES.getD i 0) := by
  have h : i = 0 ∨ i = 1 ∨ i = 2 ∨ i = 3 ∨ i = 4 ∨ i = 5 ∨ i = 6 := by omega
  rcases h with h | h | h | h | h | h | h <;> subst h <;> decide

theorem readU16_take (file : List Nat) (p m : Nat) (h : p + 2 ≤ m) :
    readU16 (file.take m) p = readU16 file p := by
  simp only [readU16, List.getD_eq_getElem?_getD]
  rw [List.getElem?_take_of_lt (by omega), List.getElem?_take_of_lt (by omega)]

/-! ## The container writer -/

/-- C1. For a payload list no longer than the ladder and `i` below its length, written to a
device with room for the file, `WriteIcoFile` returns `true` and the 16 bytes at positions
`[6 + 16 * i, 6 + 16 * i + 16)` of its file are: the declared width byte, the declared
height byte, 0, 0, `01 00`, `20 00`, the four little-endian bytes of the length of
payload `i` and the four little-endian bytes of the offset of payload `i`; the declared
byte is 0 for a ladder size of 256 or more and the size itself otherwise (0 for the entry
256, 48 for the entry 48). -/
theorem WriteIcoFile_directory_entry (imageList : List (List Nat)) (i room : Nat)
    (hn : imageList.length ≤ TARGET_SIZES.length) (hi : i < imageList.length)
    (hroom : 6 + 16 * imageList.length + (imageList.map List.length).sum ≤ room) :
    ∃ file, WriteIcoFile imageList (some room) = some (true, file) ∧
      (file.drop (6 + 16 * i)).take 16 =
        [declaredByte (TARGET_SIZES.getD i 0), declaredByte (TARGET_SIZES.getD i 0),
          0, 0, 1, 0, 32, 0] ++
          u32le (imageList.getD i []).length ++ u32le (payloadOffset imageList i) ∧
      declaredByte (TARGET_SIZES.getD i 0) =
        (if TARGET_SIZES.getD i 0 ≥ 256 then 0 else (TARGET_SIZES.getD i 0).toNat) ∧
      declaredByte 256 = 0 ∧ declaredByte 48 = 48 := by
  have hn7 : imageList.length ≤ 7 := hn
  refine ⟨icoImage imageList,
    WriteIcoFile_fits imageList room hn7 (by rw [icoImage_length imageList hn7]; exact hroom),
    ?_, rfl, by decide, by decide⟩
  rw [icoImage_chunk imageList i hn7 hi, declaredByte_TARGET_SIZES i (by omega), entryImage,
    u32le_toUInt32, u32le_toUInt32]
  simp [u16le]

theorem WriteIcoFile_directory_entry_witness :
    ∃ file, WriteIcoFile [[1, 2, 3], [4, 5]] (some 4096) = some (true, file) ∧
      (file.drop (6 + 16 * 1)).take 16 =
        [declaredByte (TARGET_SIZES.getD 1 0), declaredByte (TARGET_SIZES.getD 1 0),
          0, 0, 1, 0, 32, 0] ++
          u32le ([[1, 2, 3], [4, 5]].getD 1 []).length ++
          u32le (payloadOffset [[1, 2, 3], [4, 5]] 1) ∧
      declaredByte (TARGET_SIZES.getD 1 0) =
        (if TARGET_SIZES.getD 1 0 ≥ 256 then 0 else (TARGET_SIZES.getD 1 0).toNat) ∧
      declaredByte 256 = 0 ∧ declaredByte 48 = 48 :=
  WriteIcoFile_directory_entry [[1, 2, 3], [4, 5]] 1 4096 (by decide) (by decide) (by decide)

/-- C2. `WriteIcoFile` is defined for every list no longer than the ladder and returns
`true` when the device has room for the file; whenever it runs on an open stream with room
for at least 6 bytes, the first 6 bytes of its file are `00 00`, `01 00` and the two
little-endian bytes of the entry count, and the entry count read back from them is the
number of payloads. -/
theorem WriteIcoFile_header (imageList : List (List Nat)) (room : Nat) :
    (imageList.length ≤ TARGET_SIZES.length → (WriteIcoFile imageList (some room)).isSome) ∧
    (imageList.length ≤ TARGET_SIZES.length →
      6 + 16 * imageList.length + (imageList.map List.length).sum ≤ room →
      ∃ file, WriteIcoFile imageList (some room) = some (true, file)) ∧
    ∀ ret file, WriteIcoFile imageList (some room) = some (ret, file) → 6 ≤ room →
      file.take 6 = [0, 0, 1, 0] ++ u16le imageList.length ∧
      entryCount file = imageList.length := by
  refine ⟨?_, ?_, ?_⟩
  · intro hn
    rw [WriteIcoFile_eq imageList room hn]
    rfl
  · intro hn hroom
    exact ⟨_, WriteIcoFile_fits imageList room hn (by rw [icoImage_length imageList hn]; exact hroom)⟩
  · intro ret file h h6
    have hn := WriteIcoFile_some_length imageList room _ h
    rw [WriteIcoFile_eq imageList room hn] at h
    obtain ⟨-, rfl⟩ := Prod.mk.inj (Option.some.inj h)
    constructor
    · rw [List.take_take, Nat.min_eq_left h6]
      simp only [icoImage, headerImage, u16le, toUInt16, List.append_assoc, List.cons_append,
        List.nil_append, List.take_succ_cons, List.take_zero]
      simp
      omega
    · rw [entryCount, readU16_take _ 4 room (by omega), ← entryCount, entryCount_icoImage]
      omega

theorem WriteIcoFile_header_witness :
    (WriteIcoFile [[1, 2, 3], [4, 5]] (some 4096)).isSome ∧
    (∃ file, WriteIcoFile [[1, 2, 3], [4, 5]] (some 4096) = some (true, file)) ∧
    List.take 6 [0, 0, 1, 0, 2, 0, 16, 16, 0, 0, 1, 0, 32, 0, 3, 0, 0, 0, 38, 0, 0, 0,
        24, 24, 0, 0, 1, 0, 32, 0, 2, 0, 0, 0, 41, 0, 0, 0, 1, 2, 3, 4, 5] =
      [0, 0, 1, 0] ++ u16le [[1, 2, 3], [4, 5]].length ∧
    entryCount [0, 0, 1, 0, 2, 0, 16, 16, 0, 0, 1, 0, 32, 0, 3, 0, 0, 0, 38, 0, 0, 0,
        24, 24, 0, 0, 1, 0, 32, 0, 2, 0, 0, 0, 41, 0, 0, 0, 1, 2, 3, 4, 5] =
      [[1, 2, 3], [4, 5]].length :=
  have hw := WriteIcoFile_header [[1, 2, 3], [4, 5]] 4096
  ⟨hw.1 (by decide), hw.2.1 (by decide) (by decide), hw.2.2 true _ (by decide) (by decide)⟩

/-- C3. For a payload list of length `n` no longer than the ladder, written to a device
with room for the file, the file written by `WriteIcoFile` is `6 + 16 * n` bytes of header
and directory followed by exactly the concatenation of the payloads in list order, so its
length is `6 + 16 * n` plus the sum of the payload lengths. -/
theorem WriteIcoFile_layout (imageList : List (List Nat)) (room : Nat)
    (hn : imageList.length ≤ TARGET_SIZES.length)
    (hroom : 6 + 16 * imageList.length + (imageList.map List.length).sum ≤ room) :
    ∃ file, WriteIcoFile imageList (some room) = some (true, file) ∧
      (file.take (6 + 16 * imageList.length)).length = 6 + 16 * imageList.length ∧
      file.drop (6 + 16 * imageList.length) = imageList.flatten ∧
      file.length = 6 + 16 * imageList.length + (imageList.map List.length).sum := by
  have hn7 : imageList.length ≤ 7 := hn
  refine ⟨icoImage imageList,
    WriteIcoFile_fits imageList room hn7 (by rw [icoImage_length imageList hn7]; exact hroom),
    ?_, (icoImage_split imageList hn7).2, icoImage_length imageList hn7⟩
  rw [List.length_take, icoImage_length imageList hn7]
  omega

theorem WriteIcoFile_layout_witness :
    ∃ file, WriteIcoFile [[1, 2, 3], [4, 5]] (some 4096) = some (true, file) ∧
      (file.take (6 + 16 * [[1, 2, 3], [4, 5]].length)).length =
        6 + 16 * [[1, 2, 3], [4, 5]].length ∧
      file.drop (6 + 16 * [[1, 2, 3], [4, 5]].length) = [[1, 2, 3], [4, 5]].flatten ∧
      file.length = 6 + 16 * [[1, 2, 3], [4, 5]].length +
        ([[1, 2, 3], [4, 5]].map List.length).sum :=
  WriteIcoFile_layout [[1, 2, 3], [4, 5]] 4096 (by decide) (by decide)

/-- C4 (as the code has it). In every container that `WriteIcoFile` generates from `n`
payloads (it returned `true`), the offset and the length stored in directory entry `i` are
the running cumulative sum `6 + 16 * n + (lengths of payloads 0..i-1)` and the length of
payload `i`, both reduced modulo `2 ^ 32` (the fields are `uint32_t`). When the total file
length is below `2 ^ 32` the stored offset is that sum itself, each entry ends where the
next one starts, the last entry ends at the end of the file, and no two entries overlap. -/
theorem WriteIcoFile_offsets (imageList : List (List Nat)) (room : Nat) (file : List Nat)
    (h : WriteIcoFile imageList (some room) = some (true, file)) :
    (∀ i, i < imageList.length →
      entryOffset file i = payloadOffset imageList i % 4294967296 ∧
      entryLength file i = (imageList.getD i []).length % 4294967296) ∧
    (file.length < 4294967296 →
      (∀ i, i < imageList.length → entryOffset file i = payloadOffset imageList i) ∧
      (∀ i, i + 1 < imageList.length →
        entryOffset file i + entryLength file i = entryOffset file (i + 1)) ∧
      (∀ i, i + 1 = imageList.length →
        entryOffset file i + entryLength file i = file.length) ∧
      (∀ i j, i < j → j < imageList.length →
        entryOffset file i + entryLength file i ≤ entryOffset file j)) := by
  obtain ⟨hn, -, rfl⟩ := WriteIcoFile_true imageList room file h
  have hmod : ∀ i, i < imageList.length →
      entryOffset (icoImage imageList) i = payloadOffset imageList i % 4294967296 ∧
      entryLength (icoImage imageList) i = (imageList.getD i []).length % 4294967296 :=
    fun i hi => ⟨entryOffset_icoImage imageList i hn hi, entryLength_icoImage imageList i hn hi⟩
  refine ⟨hmod, fun hlt => ?_⟩
  rw [icoImage_length imageList hn, ← payloadOffset_length] at hlt
  have hexact : ∀ i, i < imageList.length →
      entryOffset (icoImage imageList) i = payloadOffset imageList i ∧
      entryLength (icoImage imageList) i = (imageList.getD i []).length := by
    intro i hi
    have hs := payloadOffset_succ imageList i hi
    have hm := payloadOffset_mono imageList (i + 1) imageList.length (by omega)
    obtain ⟨h1, h2⟩ := hmod i hi
    rw [h1, h2]
    omega
  refine ⟨fun i hi => (hexact i hi).1, ?_, ?_, ?_⟩
  · intro i hi
    rw [(hexact i (by omega)).1, (hexact i (by omega)).2, (hexact (i + 1) hi).1,
      payloadOffset_succ imageList i (by omega)]
  · intro i hi
    rw [(hexact i (by omega)).1, (hexact i (by omega)).2, icoImage_length imageList hn,
      ← payloadOffset_length, ← hi, payloadOffset_succ imageList i (by omega)]
  · intro i j hij hj
    rw [(hexact i (by omega)).1, (hexact i (by omega)).2, (hexact j hj).1,
      ← payloadOffset_succ imageList i (by omega)]
    exact payloadOffset_mono imageList (i + 1) j (by omega)

theorem WriteIcoFile_offsets_witness :
    entryOffset [0, 0, 1, 0, 2, 0, 16, 16, 0, 0, 1, 0, 32, 0, 3, 0, 0, 0, 38, 0, 0, 0,
        24, 24, 0, 0, 1, 0, 32, 0, 2, 0, 0, 0, 41, 0, 0, 0, 1, 2, 3, 4, 5] 1 =
      payloadOffset [[1, 2, 3], [4, 5]] 1 ∧
    entryOffset [0, 0, 1, 0, 2, 0, 16, 16, 0, 0, 1, 0, 32, 0, 3, 0, 0, 0, 38, 0, 0, 0,
        24, 24, 0, 0, 1, 0, 32, 0, 2, 0, 0, 0, 41, 0, 0, 0, 1, 2, 3, 4, 5] 0 +
      entryLength [0, 0, 1, 0, 2, 0, 16, 16, 0, 0, 1, 0, 32, 0, 3, 0, 0, 0, 38, 0, 0, 0,
        24, 24, 0, 0, 1, 0, 32, 0, 2, 0, 0, 0, 41, 0, 0, 0, 1, 2, 3, 4, 5] 0 =
      entryOffset [0, 0, 1, 0, 2, 0, 16, 16, 0, 0, 1, 0, 32, 0, 3, 0, 0, 0, 38, 0, 0, 0,
        24, 24, 0, 0, 1, 0, 32, 0, 2, 0, 0, 0, 41, 0, 0, 0, 1, 2, 3, 4, 5] 1 ∧
    entryOffset [0, 0, 1, 0, 2, 0, 16, 16, 0, 0, 1, 0, 32, 0, 3, 0, 0, 0, 38, 0, 0, 0,
        24, 24, 0, 0, 1, 0, 32, 0, 2, 0, 0, 0, 41, 0, 0, 0, 1, 2, 3, 4, 5] 1 +
      entryLength [0, 0, 1, 0, 2, 0, 16, 16, 0, 0, 1, 0, 32, 0, 3, 0, 0, 0, 38, 0, 0, 0,
        24, 24, 0, 0, 1, 0, 32, 0, 2, 0, 0, 0, 41, 0, 0, 0, 1, 2, 3, 4, 5] 1 =
      List.length [0, 0, 1, 0, 2, 0, 16, 16, 0, 0, 1, 0, 32, 0, 3, 0, 0, 0, 38, 0, 0, 0,
        24, 24, 0, 0, 1, 0, 32, 0, 2, 0, 0, 0, 41, 0, 0, 0, 1, 2, 3, 4, 5] :=
  have hw := (WriteIcoFile_offsets [[1, 2, 3], [4, 5]] 4096
    [0, 0, 1, 0, 2, 0, 16, 16, 0, 0, 1, 0, 32, 0, 3, 0, 0, 0, 38, 0, 0, 0,
        24, 24, 0, 0, 1, 0, 32, 0, 2, 0, 0, 0, 41, 0, 0, 0, 1, 2, 3, 4, 5] (by decide)).2
    (by decide)
  ⟨hw.1 1 (by decide), hw.2.1 0 (by decide), hw.2.2.1 1 (by decide)⟩

theorem offset_wraps (big : List Nat) (hb : big.length = 4294967296) :
    ∃ file, WriteIcoFile [big, []] (some 4294967334) = some (true, file) ∧
      payloadOffset [big, []] 1 = 4294967334 ∧
      entryOffset file 1 = 38 ∧
      ¬ (entryOffset file 1 = payloadOffset [big, []] 1) := by
  have hn : [big, []].length ≤ 7 := by simp
  have hp : payloadOffset [big, []] 1 = 4294967334 := by
    simp [payloadOffset, hb]
  have hl : (icoImage [big, []]).length ≤ 4294967334 := by
    rw [icoImage_length _ hn]
    simp [hb]
  have ho := entryOffset_icoImage [big, []] 1 hn (by simp)
  rw [hp] at ho
  refine ⟨_, WriteIcoFile_fits _ _ hn hl, hp, by rw [ho], ?_⟩
  rw [ho, hp]
  decide

/-- C4, counterexample. For the two payloads `[4 GiB of zero bytes, empty]`, written to a
device with room for the file, the container is generated, the cumulative sum for entry 1
is `38 + 2 ^ 32`, and the offset stored in entry 1 is `38`. -/
theorem WriteIcoFile_offsets_counterexample :
    ∃ file, WriteIcoFile [List.replicate 4294967296 0, []] (some 4294967334) =
        some (true, file) ∧
      payloadOffset [List.replicate 4294967296 0, []] 1 = 4294967334 ∧
      entryOffset file 1 = 38 ∧
      ¬ (entryOffset file 1 = payloadOffset [List.replicate 4294967296 0, []] 1) :=
  offset_wraps (List.replicate 4294967296 0) (List.length_replicate _ _)

/-- C10. For a payload list no longer than the ladder whose total file length
`6 + 16 * n + (sum of the payload lengths)` is below `2 ^ 32`, written to a device with
room for the file, `WriteIcoFile` writes a file of that length, the entry count read from
its header is the number of payloads, the `length` bytes at the `offset` recorded in
directory entry `i` are payload `i`, and reading all entries gives back the payload list,
in order. -/
theorem WriteIcoFile_round_trip (imageList : List (List Nat)) (room : Nat)
    (hn : imageList.length ≤ TARGET_SIZES.length)
    (hlen : 6 + 16 * imageList.length + (imageList.map List.length).sum < 4294967296)
    (hroom : 6 + 16 * imageList.length + (imageList.map List.length).sum ≤ room) :
    ∃ file, WriteIcoFile imageList (some room) = some (true, file) ∧
      file.length = 6 + 16 * imageList.length + (imageList.map List.length).sum ∧
      entryCount file = imageList.length ∧
      (∀ i, i < imageList.length →
        (file.drop (entryOffset file i)).take (entryLength file i) = imageList.getD i []) ∧
      readPayloads file = imageList := by
  have hn7 : imageList.length ≤ 7 := hn
  refine ⟨icoImage imageList,
    WriteIcoFile_fits imageList room hn7 (by rw [icoImage_length imageList hn7]; exact hroom),
    icoImage_length imageList hn7, ?_⟩
  rw [← payloadOffset_length] at hlen
  have hcount : entryCount (icoImage imageList) = imageList.length := by
    rw [entryCount_icoImage]
    omega
  have hpay : ∀ i, i < imageList.length →
      ((icoImage imageList).drop (entryOffset (icoImage imageList) i)).take
        (entryLength (icoImage imageList) i) = imageList.getD i [] := by
    intro i hi
    have hs := payloadOffset_succ imageList i hi
    have hm := payloadOffset_mono imageList (i + 1) imageList.length (by omega)
    have ho : entryOffset (icoImage imageList) i = payloadOffset imageList i := by
      rw [entryOffset_icoImage imageList i hn7 hi]
      omega
    have hl : entryLength (icoImage imageList) i = (imageList.getD i []).length := by
      rw [entryLength_icoImage imageList i hn7 hi]
      omega
    rw [ho, hl, payload_icoImage imageList i hn7 hi]
  refine ⟨hcount, hpay, ?_⟩
  apply List.ext_getElem
  · simp [readPayloads, hcount]
  · intro i h1 h2
    simp only [readPayloads, List.getElem_map, List.getElem_range]
    rw [hpay i h2, List.getD_eq_getElem?_getD, List.getElem?_eq_getElem h2, Option.getD_some]

theorem WriteIcoFile_round_trip_witness :
    ∃ file, WriteIcoFile [[1, 2, 3], [4, 5]] (some 4096) = some (true, file) ∧
      file.length = 6 + 16 * [[1, 2, 3], [4, 5]].length +
        ([[1, 2, 3], [4, 5]].map List.length).sum ∧
      entryCount file = [[1, 2, 3], [4, 5]].length ∧
      (∀ i, i < [[1, 2, 3], [4, 5]].length →
        (file.drop (entryOffset file i)).take (entryLength file i) =
          [[1, 2, 3], [4, 5]].getD i []) ∧
      readPayloads file = [[1, 2, 3], [4, 5]] :=
  WriteIcoFile_round_trip [[1, 2, 3], [4, 5]] 4096 (by decide) (by decide) (by decide)

/-! ## The pipeline -/

theorem variantLoop_eq (gdi : Gdi) (squareImage : Bitmap) (sizes : List Int)
    (imageDataList : List (List Nat)) (steps : List Step) :
    variantLoop gdi squareImage sizes (imageDataList, steps) =
      (imageDataList ++
          sizes.map (fun size => ConvertToPngBytes gdi (CreateResizedVersion gdi squareImage size)),
        steps ++ ladderSteps gdi squareImage sizes) := by
  induction sizes generalizing imageDataList steps with
  | nil => simp [variantLoop, ladderSteps]
  | cons size rest ih =>
    rw [variantLoop, ih]
    simp [ladderSteps]

theorem ladderPayloads_length (gdi : Gdi) (squareImage : Bitmap) :
    (ladderPayloads gdi squareImage).length = 7 := by
  simp [ladderPayloads, TARGET_SIZES]

theorem getLast?_snoc {α : Type} (l : List α) (x : α) : (l ++ [x]).getLast? = some x := by
  simp

theorem findPngLoop_eq (encoders : List ImageCodecInfo) :
    findPngLoop encoders =
      (encoders.find? (fun info => decide (info.MimeType = "image/png"))).map
        ImageCodecInfo.Clsid := by
  induction encoders with
  | nil => rfl
  | cons info rest ih =>
    by_cases hm : info.MimeType = "image/png"
    · simp [findPngLoop, hm]
    · simp [findPngLoop, hm, ih]

theorem FindPngEncoder_eq (gdi : Gdi) : FindPngEncoder gdi = pngClsid gdi :=
  findPngLoop_eq gdi.encoders

theorem CreateResizedVersion_eq (gdi : Gdi) (squareImage : Bitmap) (size : Int)
    (hpos : 0 < size) :
    CreateResizedVersion gdi squareImage size = specResized gdi squareImage size := by
  simp [CreateResizedVersion, specResized, Bitmap.create, hpos]

theorem ConvertToPngBytes_eq (gdi : Gdi) (image : Bitmap)
    (hlen : (specEncoding gdi image).length < 4294967296) :
    ConvertToPngBytes gdi image = specEncoding gdi image := by
  rw [specEncoding] at hlen
  have h1 : (gdi.Save image (pngClsid gdi)).2.length % SIZE_MAX1 =
      (gdi.Save image (pngClsid gdi)).2.length := by
    simp only [SIZE_MAX1]
    omega
  have h2 : (gdi.Save image (pngClsid gdi)).2.length % 4294967296 =
      (gdi.Save image (pngClsid gdi)).2.length := by
    omega
  simp only [ConvertToPngBytes, FindPngEncoder_eq, h1, h2, specEncoding, List.take_length,
    Nat.sub_self, List.replicate_zero, List.append_nil]

theorem TARGET_SIZES_pos (i : Nat) (size : Int) (h : TARGET_SIZES[i]? = some size) :
    0 < size := by
  have hall : ∀ x ∈ TARGET_SIZES, 0 < x := by decide
  exact hall size (List.getElem?_mem h)

theorem ladderPayloads_getElem? (gdi : Gdi) (squareImage : Bitmap) (i : Nat) (size : Int)
    (h : TARGET_SIZES[i]? = some size)
    (hlen : (specEncoding gdi (specResized gdi squareImage size)).length < 4294967296) :
    (ladderPayloads gdi squareImage)[i]? =
      some (specEncoding gdi (specResized gdi squareImage size)) := by
  have hpos := TARGET_SIZES_pos i size h
  rw [ladderPayloads, List.getElem?_map, h, Option.map_some',
    CreateResizedVersion_eq gdi squareImage size hpos, ConvertToPngBytes_eq gdi _ hlen]

theorem WriteIcoFile_total (imageList : List (List Nat)) (device : Option Nat)
    (hn : imageList.length ≤ 7) :
    ∃ ret file, WriteIcoFile imageList device = some (ret, file) := by
  cases device with
  | none => exact ⟨false, [], rfl⟩
  | some room => exact ⟨_, _, WriteIcoFile_eq imageList room hn⟩

theorem ProcessPngToIco_loaded (gdi : Gdi) (inputFile outputFile : List Char)
    (hload : (gdi.loadBitmap inputFile).lastStatus = Status.Ok) :
    ∃ ret file,
      WriteIcoFile (ladderPayloads gdi (MakeSquareFromCenter gdi (gdi.loadBitmap inputFile)))
        (gdi.openForWrite outputFile) = some (ret, file) ∧
      ProcessPngToIco gdi inputFile outputFile =
        some { ret := ret
               steps := [Step.crop] ++
                 ladderSteps gdi (MakeSquareFromCenter gdi (gdi.loadBitmap inputFile))
                   TARGET_SIZES ++
                 [Step.write
                   (ladderPayloads gdi (MakeSquareFromCenter gdi (gdi.loadBitmap inputFile)))]
               output := if (gdi.openForWrite outputFile).isSome then some file else none } := by
  obtain ⟨ret, file, hw⟩ := WriteIcoFile_total
    (ladderPayloads gdi (MakeSquareFromCenter gdi (gdi.loadBitmap inputFile)))
    (gdi.openForWrite outputFile) (le_of_eq (ladderPayloads_length _ _))
  refine ⟨ret, file, hw, ?_⟩
  rw [ladderPayloads] at hw
  simp only [ProcessPngToIco, hload, ne_eq, not_true_eq_false, if_false, variantLoop_eq,
    List.nil_append, hw, ladderPayloads]

theorem ProcessPngToIco_written (gdi : Gdi) (inputFile outputFile : List Char) (r : Outcome)
    (file : List Nat) (hload : (gdi.loadBitmap inputFile).lastStatus = Status.Ok)
    (hr : ProcessPngToIco gdi inputFile outputFile = some r) (hret : r.ret = true)
    (hout : r.output = some file) :
    file = icoImage (ladderPayloads gdi (MakeSquareFromCenter gdi (gdi.loadBitmap inputFile))) := by
  obtain ⟨ret, file0, hw, hp⟩ := ProcessPngToIco_loaded gdi inputFile outputFile hload
  rw [hp] at hr
  have hr2 := Option.some.inj hr
  subst hr2
  simp only at hret hout
  subst hret
  cases hdev : gdi.openForWrite outputFile with
  | none =>
    rw [hdev] at hw
    simp [WriteIcoFile] at hw
  | some room =>
    rw [hdev] at hw hout
    obtain ⟨-, -, hfile⟩ := WriteIcoFile_true _ room file0 hw
    simp only [Option.isSome_some, if_true] at hout
    rw [← Option.some.inj hout, hfile]

theorem ProcessPngToIco_fits (gdi : Gdi) (inputFile outputFile : List Char) (room : Nat)
    (hload : (gdi.loadBitmap inputFile).lastStatus = Status.Ok)
    (hdev : gdi.openForWrite outputFile = some room)
    (hroom : (icoImage (ladderPayloads gdi
      (MakeSquareFromCenter gdi (gdi.loadBitmap inputFile)))).length ≤ room) :
    ProcessPngToIco gdi inputFile outputFile =
      some { ret := true
             steps := [Step.crop] ++
               ladderSteps gdi (MakeSquareFromCenter gdi (gdi.loadBitmap inputFile))
                 TARGET_SIZES ++
               [Step.write
                 (ladderPayloads gdi (MakeSquareFromCenter gdi (gdi.loadBitmap inputFile)))]
             output := some (icoImage
               (ladderPayloads gdi (MakeSquareFromCenter gdi (gdi.loadBitmap inputFile)))) } := by
  obtain ⟨ret, file, hw, hp⟩ := ProcessPngToIco_loaded gdi inputFile outputFile hload
  rw [hdev, WriteIcoFile_fits _ room (le_of_eq (ladderPayloads_length _ _)) hroom] at hw
  obtain ⟨h1, h2⟩ := Prod.mk.inj (Option.some.inj hw)
  rw [hp, hdev, ← h1, ← h2]
  rfl

/-- C5. For a source of width `W ≥ 1` and height `H ≥ 1` (in the range of `INT`, the type
GDI+ bitmaps are created with), `MakeSquareFromCenter` computes `S = min W H`,
`startX = (W - S) / 2` and `startY = (H - S) / 2` (floor division), and returns an `S × S`
bitmap whose pixels are drawn 1:1 from the `S × S` source region at `(startX, startY)`;
when `W = H` both offsets are 0 and `S = W`, and a 100 × 60 source gives a 60 × 60 square
at x-offset 20 and y-offset 0. -/
theorem MakeSquareFromCenter_centered (gdi : Gdi) (source : Bitmap)
    (hw : 1 ≤ source.width) (hh : 1 ≤ source.height)
    (hW : source.width < 2147483648) (hH : source.height < 2147483648) :
    squareLocals source.GetWidth source.GetHeight =
      (min source.width source.height,
        (source.width - min source.width source.height) / 2,
        (source.height - min source.width source.height) / 2) ∧
    (MakeSquareFromCenter gdi source).width = min source.width source.height ∧
    (MakeSquareFromCenter gdi source).height = min source.width source.height ∧
    (MakeSquareFromCenter gdi source).pixels =
      gdi.drawRegion source
        (Bitmap.create (min source.width source.height : Nat) (min source.width source.height : Nat))
        ⟨0, 0, (min source.width source.height : Nat), (min source.width source.height : Nat)⟩
        (((source.width - min source.width source.height) / 2 : Nat) : Int)
        (((source.height - min source.width source.height) / 2 : Nat) : Int)
        (min source.width source.height : Nat) (min source.width source.height : Nat) ∧
    (source.width = source.height →
      squareLocals source.GetWidth source.GetHeight = (source.width, 0, 0)) ∧
    squareLocals 100 60 = (60, 20, 0) := by
  have hgw : source.GetWidth = source.width := by
    simp only [Bitmap.GetWidth]
    omega
  have hgh : source.GetHeight = source.height := by
    simp only [Bitmap.GetHeight]
    omega
  have hloc : squareLocals source.width source.height =
      (min source.width source.height,
        (source.width - min source.width source.height) / 2,
        (source.height - min source.width source.height) / 2) := by
    simp only [squareLocals]
    by_cases hlt : source.width < source.height
    · rw [if_pos hlt, Nat.min_eq_left (by omega)]
      simp only [Prod.mk.injEq, true_and]
      constructor <;> omega
    · rw [if_neg hlt, Nat.min_eq_right (by omega)]
      simp only [Prod.mk.injEq, true_and]
      constructor <;> omega
  have hint : ∀ u : Nat, u < 2147483648 → toINT u = (u : Int) := by
    intro u hu
    simp [toINT, hu]
  have hS : min source.width source.height < 2147483648 := by
    have := Nat.min_le_left source.width source.height
    omega
  have hX : (source.width - min source.width source.height) / 2 < 2147483648 := by omega
  have hY : (source.height - min source.width source.height) / 2 < 2147483648 := by omega
  refine ⟨by rw [hgw, hgh, hloc], ?_, ?_, ?_, ?_, by decide⟩
  · simp only [MakeSquareFromCenter, hgw, hgh, hloc, hint _ hS, Bitmap.create, Int.toNat_ofNat]
  · simp only [MakeSquareFromCenter, hgw, hgh, hloc, hint _ hS, Bitmap.create, Int.toNat_ofNat]
  · simp only [MakeSquareFromCenter, hgw, hgh, hloc, hint _ hS, hint _ hX, hint _ hY]
  · intro heq
    rw [hgw, hgh, hloc, ← heq, Nat.min_self, Nat.sub_self]

theorem MakeSquareFromCenter_centered_witness :
    (MakeSquareFromCenter sampleGdi ⟨Status.Ok, 100, 60, []⟩).width = 60 ∧
    (MakeSquareFromCenter sampleGdi ⟨Status.Ok, 100, 60, []⟩).height = 60 ∧
    squareLocals (Bitmap.GetWidth ⟨Status.Ok, 100, 60, []⟩)
      (Bitmap.GetHeight ⟨Status.Ok, 100, 60, []⟩) = (60, 20, 0) :=
  have hw := MakeSquareFromCenter_centered sampleGdi ⟨Status.Ok, 100, 60, []⟩
    (by decide) (by decide) (by decide) (by decide)
  ⟨hw.2.1, hw.2.2.1, hw.1⟩

/-- C6. For every successfully loaded source, the list that `ProcessPngToIco` hands to
`WriteIcoFile` has one payload per ladder entry (7 of them). With `size = TARGET_SIZES[i]`,
payload `i` is the encoding (the bytes the encode stream holds after `Save` with the PNG
encoder, a stream below `2 ^ 32` bytes) of the `size × size` bitmap that `DrawImage` draws
from the cropped square. So `WriteIcoFile` is defined on the list (every `TARGET_SIZES[i]`
it reads is in range), and in the container it writes the width and height bytes of
directory entry `i` are the declared byte of that same `size`. -/
theorem ProcessPngToIco_payload_list (gdi : Gdi) (inputFile outputFile : List Char)
    (hload : (gdi.loadBitmap inputFile).lastStatus = Status.Ok) :
    ∃ r imageList, ProcessPngToIco gdi inputFile outputFile = some r ∧
      r.steps.getLast? = some (Step.write imageList) ∧
      imageList.length = 7 ∧ TARGET_SIZES.length = 7 ∧
      (∀ i, i < 7 → ∃ size, TARGET_SIZES[i]? = some size ∧
        (specResized gdi (MakeSquareFromCenter gdi (gdi.loadBitmap inputFile)) size).width =
          size.toNat ∧
        (specResized gdi (MakeSquareFromCenter gdi (gdi.loadBitmap inputFile)) size).height =
          size.toNat ∧
        ((specEncoding gdi (specResized gdi
            (MakeSquareFromCenter gdi (gdi.loadBitmap inputFile)) size)).length < 4294967296 →
          imageList[i]? = some (specEncoding gdi (specResized gdi
            (MakeSquareFromCenter gdi (gdi.loadBitmap inputFile)) size))) ∧
        (∀ file, r.ret = true → r.output = some file →
          file.getD (6 + 16 * i) 0 = declaredByte size ∧
          file.getD (6 + 16 * i + 1) 0 = declaredByte size)) ∧
      (WriteIcoFile imageList (gdi.openForWrite outputFile)).isSome := by
  obtain ⟨ret, file0, hw, hp⟩ := ProcessPngToIco_loaded gdi inputFile outputFile hload
  have h7 := ladderPayloads_length gdi (MakeSquareFromCenter gdi (gdi.loadBitmap inputFile))
  refine ⟨_, ladderPayloads gdi (MakeSquareFromCenter gdi (gdi.loadBitmap inputFile)), hp,
    getLast?_snoc _ _, h7, rfl, ?_, by rw [hw]; rfl⟩
  intro i hi
  have hi7 : i < TARGET_SIZES.length := hi
  have hsize : TARGET_SIZES[i]? = some TARGET_SIZES[i] := List.getElem?_eq_getElem hi7
  refine ⟨TARGET_SIZES[i], hsize, rfl, rfl, ladderPayloads_getElem? gdi _ i _ hsize, ?_⟩
  intro file hret hout
  have hfile := ProcessPngToIco_written gdi inputFile outputFile _ file hload hp hret hout
  have hc := icoImage_chunk _ i (le_of_eq h7) (by omega : i < (ladderPayloads gdi
    (MakeSquareFromCenter gdi (gdi.loadBitmap inputFile))).length)
  have hd : TARGET_SIZES.getD i 0 = TARGET_SIZES[i] := by
    rw [List.getD_eq_getElem?_getD, hsize, Option.getD_some]
  rw [declaredByte_TARGET_SIZES i hi, hd, entryImage] at hc
  have h0 := getD_of_chunk _ _ (6 + 16 * i) 16 0 hc (by simp [u16le, u32le])
  have h1 := getD_of_chunk _ _ (6 + 16 * i) 16 1 hc (by simp [u16le, u32le])
  rw [hfile]
  exact ⟨by simpa using h0, by simpa using h1⟩

theorem ProcessPngToIco_payload_list_witness :
    ∃ r imageList,
      ProcessPngToIco sampleGdi "C:\\tools\\a.png".toList "C:\\tools\\a.ico".toList = some r ∧
      r.steps.getLast? = some (Step.write imageList) ∧
      imageList.length = 7 ∧ TARGET_SIZES.length = 7 ∧
      (∀ i, i < 7 → ∃ size, TARGET_SIZES[i]? = some size ∧
        (specResized sampleGdi (MakeSquareFromCenter sampleGdi
          (sampleGdi.loadBitmap "C:\\tools\\a.png".toList)) size).width = size.toNat ∧
        (specResized sampleGdi (MakeSquareFromCenter sampleGdi
          (sampleGdi.loadBitmap "C:\\tools\\a.png".toList)) size).height = size.toNat ∧
        ((specEncoding sampleGdi (specResized sampleGdi (MakeSquareFromCenter sampleGdi
            (sampleGdi.loadBitmap "C:\\tools\\a.png".toList)) size)).length < 4294967296 →
          imageList[i]? = some (specEncoding sampleGdi (specResized sampleGdi
            (MakeSquareFromCenter sampleGdi
              (sampleGdi.loadBitmap "C:\\tools\\a.png".toList)) size))) ∧
        (∀ file, r.ret = true → r.output = some file →
          file.getD (6 + 16 * i) 0 = declaredByte size ∧
          file.getD (6 + 16 * i + 1) 0 = declaredByte size)) ∧
      (WriteIcoFile imageList (sampleGdi.openForWrite "C:\\tools\\a.ico".toList)).isSome :=
  ProcessPngToIco_payload_list sampleGdi "C:\\tools\\a.png".toList "C:\\tools\\a.ico".toList
    (by decide)

/-- C7 (as the code has it). `ProcessPngToIco` does not look at the status of the encode.
For every successfully loaded source it still hands `WriteIcoFile` seven payloads, none
skipped; the payload of a size is the bytes the encode stream holds after `Save` (a stream
below `2 ^ 32` bytes), whatever status `Save` returned; it returns what `WriteIcoFile`
returns, and the output file holds what `WriteIcoFile` wrote; replacing every `Save`
status by `Ok` changes nothing. -/
theorem ProcessPngToIco_encode_status_unchecked (gdi : Gdi) (inputFile outputFile : List Char)
    (hload : (gdi.loadBitmap inputFile).lastStatus = Status.Ok) :
    ∃ r imageList, ProcessPngToIco gdi inputFile outputFile = some r ∧
      r.steps.getLast? = some (Step.write imageList) ∧
      imageList.length = 7 ∧
      (∀ (i : Nat) (size : Int), TARGET_SIZES[i]? = some size →
        (specEncoding gdi (specResized gdi
            (MakeSquareFromCenter gdi (gdi.loadBitmap inputFile)) size)).length < 4294967296 →
        imageList[i]? = some (gdi.Save (specResized gdi
          (MakeSquareFromCenter gdi (gdi.loadBitmap inputFile)) size) (pngClsid gdi)).2) ∧
      (∃ file, WriteIcoFile imageList (gdi.openForWrite outputFile) = some (r.ret, file) ∧
        r.output = if (gdi.openForWrite outputFile).isSome then some file else none) ∧
      ProcessPngToIco { gdi with Save := fun image clsid => (Status.Ok, (gdi.Save image clsid).2) }
        inputFile outputFile = some r := by
  obtain ⟨ret, file0, hw, hp⟩ := ProcessPngToIco_loaded gdi inputFile outputFile hload
  refine ⟨_, ladderPayloads gdi (MakeSquareFromCenter gdi (gdi.loadBitmap inputFile)), hp,
    getLast?_snoc _ _, ladderPayloads_length _ _, ?_, ⟨file0, hw, rfl⟩, ?_⟩
  · intro i size hsize hlen
    exact ladderPayloads_getElem? gdi _ i size hsize hlen
  · rw [← hp]
    rfl

theorem ProcessPngToIco_encode_status_unchecked_witness :
    ∃ r imageList,
      ProcessPngToIco sampleGdi "C:\\tools\\a.png".toList "C:\\tools\\a.ico".toList = some r ∧
      r.steps.getLast? = some (Step.write imageList) ∧
      imageList.length = 7 ∧
      (∀ (i : Nat) (size : Int), TARGET_SIZES[i]? = some size →
        (specEncoding sampleGdi (specResized sampleGdi (MakeSquareFromCenter sampleGdi
          (sampleGdi.loadBitmap "C:\\tools\\a.png".toList)) size)).length < 4294967296 →
        imageList[i]? = some (sampleGdi.Save (specResized sampleGdi
          (MakeSquareFromCenter sampleGdi (sampleGdi.loadBitmap "C:\\tools\\a.png".toList))
          size) (pngClsid sampleGdi)).2) ∧
      (∃ file, WriteIcoFile imageList (sampleGdi.openForWrite "C:\\tools\\a.ico".toList) =
          some (r.ret, file) ∧
        r.output =
          if (sampleGdi.openForWrite "C:\\tools\\a.ico".toList).isSome then some file
          else none) ∧
      ProcessPngToIco
        { sampleGdi with
          Save := fun image clsid => (Status.Ok, (sampleGdi.Save image clsid).2) }
        "C:\\tools\\a.png".toList "C:\\tools\\a.ico".toList = some r :=
  ProcessPngToIco_encode_status_unchecked sampleGdi "C:\\tools\\a.png".toList
    "C:\\tools\\a.ico".toList (by decide)

/-- C7, counterexample. In the sample world the encode of the 256 × 256 image fails with
`OutOfMemory`, and yet `ProcessPngToIco` returns `true`, calls `WriteIcoFile` with a list
whose last payload is empty, and a 142-byte container is written. -/
theorem ProcessPngToIco_encode_failure_counterexample :
    (sampleGdi.Save (CreateResizedVersion sampleGdi
        (MakeSquareFromCenter sampleGdi (sampleGdi.loadBitmap "C:\\tools\\a.png".toList)) 256)
      (FindPngEncoder sampleGdi)).1 = Status.OutOfMemory ∧
    ∃ r, ProcessPngToIco sampleGdi "C:\\tools\\a.png".toList "C:\\tools\\a.ico".toList =
        some r ∧
      r.ret = true ∧
      r.steps.getLast? = some (Step.write
        [[137, 80, 78, 71], [137, 80, 78, 71], [137, 80, 78, 71], [137, 80, 78, 71],
          [137, 80, 78, 71], [137, 80, 78, 71], []]) ∧
      r.output.map List.length = some 142 := by
  have hp : ladderPayloads sampleGdi
      (MakeSquareFromCenter sampleGdi (sampleGdi.loadBitmap "C:\\tools\\a.png".toList)) =
      [[137, 80, 78, 71], [137, 80, 78, 71], [137, 80, 78, 71], [137, 80, 78, 71],
        [137, 80, 78, 71], [137, 80, 78, 71], []] := by
    decide
  have hl : (icoImage (ladderPayloads sampleGdi (MakeSquareFromCenter sampleGdi
      (sampleGdi.loadBitmap "C:\\tools\\a.png".toList)))).length = 142 := by
    rw [icoImage_length _ (le_of_eq (ladderPayloads_length _ _)), hp]
    rfl
  refine ⟨?_, _, ProcessPngToIco_fits sampleGdi _ "C:\\tools\\a.ico".toList 4096 (by decide) rfl
    (by rw [hl]; decide), rfl, ?_, ?_⟩
  · decide
  · rw [← hp]
    exact getLast?_snoc _ _
  · show Option.map List.length (some (icoImage _)) = some 142
    rw [Option.map_some', hl]

theorem ProcessPngToIco_not_loaded (gdi : Gdi) (inputFile outputFile : List Char)
    (hload : (gdi.loadBitmap inputFile).lastStatus ≠ Status.Ok) :
    ProcessPngToIco gdi inputFile outputFile =
      some { ret := false, steps := [], output := none } := by
  simp [ProcessPngToIco, hload]

/-- C8. When the source fails to load (its status is not `Ok`), `ProcessPngToIco` returns
`false`, runs no crop, resize, encode or write step, and produces no output file. -/
theorem ProcessPngToIco_load_failure (gdi : Gdi) (inputFile outputFile : List Char)
    (hload : (gdi.loadBitmap inputFile).lastStatus ≠ Status.Ok) :
    ProcessPngToIco gdi inputFile outputFile =
      some { ret := false, steps := [], output := none } :=
  ProcessPngToIco_not_loaded gdi inputFile outputFile hload

theorem ProcessPngToIco_load_failure_witness :
    ProcessPngToIco sampleGdi "C:\\tools\\bad.png".toList "C:\\tools\\bad.ico".toList =
      some { ret := false, steps := [], output := none } :=
  ProcessPngToIco_load_failure sampleGdi "C:\\tools\\bad.png".toList
    "C:\\tools\\bad.ico".toList (by decide)

/-! ## Batch mode -/

theorem ProcessPngToIco_total (gdi : Gdi) (inputFile outputFile : List Char) :
    ∃ r, ProcessPngToIco gdi inputFile outputFile = some r := by
  by_cases hload : (gdi.loadBitmap inputFile).lastStatus = Status.Ok
  · obtain ⟨ret, file, -, hp⟩ := ProcessPngToIco_loaded gdi inputFile outputFile hload
    exact ⟨_, hp⟩
  · exact ⟨_, ProcessPngToIco_not_loaded gdi inputFile outputFile hload⟩

theorem batchLoop_eq (gdi : Gdi) (dir : List Char) (found : List FindData) (total ok : Nat) :
    batchLoop gdi dir found (total, ok) =
      some (total + (attempted found).length, ok + (converted gdi dir found).length) := by
  induction found generalizing total ok with
  | nil => simp [batchLoop, attempted, converted]
  | cons fd rest ih =>
    by_cases hfd : fd.dwFileAttributes &&& FILE_ATTRIBUTE_DIRECTORY = 0 ∧
        HasPngExtension fd.cFileName
    · obtain ⟨r, hr⟩ := ProcessPngToIco_total gdi (dir ++ fd.cFileName)
        (ReplaceWithIco (dir ++ fd.cFileName))
      have hatt : attempted (fd :: rest) = fd :: attempted rest := by
        simp [attempted, hfd]
      rw [batchLoop, if_pos hfd]
      simp only [hr]
      rw [ih]
      cases hret : r.ret with
      | false =>
        have hconv : converted gdi dir (fd :: rest) = converted gdi dir rest := by
          simp [converted, hatt, hr, hret]
        simp only [hatt, hconv, List.length_cons, Bool.false_eq_true, if_false]
        congr 2
        omega
      | true =>
        have hconv : converted gdi dir (fd :: rest) = fd :: converted gdi dir rest := by
          simp [converted, hatt, hr, hret]
        simp only [hatt, hconv, List.length_cons, if_true]
        congr 2 <;> omega
    · have hatt : attempted (fd :: rest) = attempted rest := by
        simp only [attempted, List.filter_cons, decide_eq_true_eq, if_neg hfd]
      have hconv : converted gdi dir (fd :: rest) = converted gdi dir rest := by
        simp only [converted, hatt]
      rw [batchLoop, if_neg hfd, ih, hatt, hconv]

theorem converted_le (gdi : Gdi) (dir : List Char) (found : List FindData) :
    (converted gdi dir found).length ≤ (attempted found).length :=
  List.length_filter_le _ _

theorem wmain_batch (gdi : Gdi) (argv : List (List Char)) (hargc : argv.length = 1) :
    wmain gdi argv =
      some (if batchTotal gdi = 0 then 1
        else if batchOk gdi = batchTotal gdi then 0 else if batchOk gdi > 0 then 2 else 1) := by
  simp only [wmain, hargc, if_true, batchTotal, batchOk]
  split
  · rename_i hnil
    simp [hnil, converted, attempted]
  · rename_i fd more hcons
    simp only [batchLoop_eq, Nat.zero_add, hcons]
    split <;> rfl

/-- C9. In batch mode (`argc == 1`), with `total` the number of attempted conversions and
`ok` the number that succeed (`ok ≤ total`), the exit code is 0 if `total > 0` and
`ok = total`, 2 if `0 < ok < total`, and 1 if `ok = 0` (which covers `total = 0` and no
file found); so 2 successes out of 3 give exit code 2. -/
theorem wmain_batch_exit_code (gdi : Gdi) (argv : List (List Char)) (hargc : argv.length = 1) :
    batchOk gdi ≤ batchTotal gdi ∧
    (0 < batchTotal gdi ∧ batchOk gdi = batchTotal gdi → wmain gdi argv = some 0) ∧
    (0 < batchOk gdi ∧ batchOk gdi < batchTotal gdi → wmain gdi argv = some 2) ∧
    (batchOk gdi = 0 → wmain gdi argv = some 1) ∧
    (gdi.findFiles (GetExeDirectory gdi ++ ['*', '.', 'p', 'n', 'g']) = [] →
      batchOk gdi = 0 ∧ batchTotal gdi = 0) ∧
    (batchOk gdi = 2 ∧ batchTotal gdi = 3 → wmain gdi argv = some 2) := by
  have hle : batchOk gdi ≤ batchTotal gdi := converted_le _ _ _
  have hmain := wmain_batch gdi argv hargc
  refine ⟨hle, ?_, ?_, ?_, ?_, ?_⟩
  · rintro ⟨h1, h2⟩
    rw [hmain, if_neg (by omega), if_pos h2]
  · rintro ⟨h1, h2⟩
    rw [hmain, if_neg (by omega), if_neg (by omega), if_pos h1]
  · intro h0
    rw [hmain]
    by_cases ht : batchTotal gdi = 0
    · rw [if_pos ht]
    · rw [if_neg ht, if_neg (by omega), if_neg (by omega)]
  · intro hnone
    simp [batchOk, batchTotal, hnone, converted, attempted]
  · rintro ⟨h1, h2⟩
    rw [hmain, if_neg (by omega), if_neg (by omega), if_pos (by omega)]

theorem wmain_batch_exit_code_witness :
    batchTotal sampleGdi = 3 ∧ batchOk sampleGdi = 2 ∧
    wmain sampleGdi ["png2ico.exe".toList] = some 2 :=
  have ht : batchTotal sampleGdi = 3 := by decide
  have hk : batchOk sampleGdi = 2 := by decide
  ⟨ht, hk, (wmain_batch_exit_code sampleGdi ["png2ico.exe".toList] (by decide)).2.2.2.2.2 ⟨hk, ht⟩⟩

end Png2Ico
